import Mathlib

/-!
Shallow embedding of the Wikimedia Commons image-search code
(`src/wikimedia.ts`, plus `constants.ts` and the raw-response types) and
proofs about it.

Conventions of the embedding:
* JavaScript numbers that hold pixel dimensions, sizes, offsets and limits
  are modelled as `Nat`; page ordinals (`index`) as `Int` (the comparator
  subtracts them); real-valued intermediate arithmetic (`width / height`,
  `Math.round`) as `ℚ` with Mathlib's `round` (which, like `Math.round`,
  rounds half toward positive infinity).
* JavaScript truthiness on an optional string is `(·.getD "") ≠ ""`, and on
  an optional number `(·.getD 0) ≠ 0`.
* `Array.prototype.sort` is stable; it is modelled by `List.insertionSort`
  (also stable), and the in-place mutation of `query.pages` is made explicit
  by returning the post-call document alongside the result.
* The network and the `sharp` image library are external collaborators; they
  enter the compositor as an environment (`CompositeEnv`) of a per-item
  fetch-and-resize outcome and a JPEG/base64 encoder, and the list of fetch
  requests actually issued is returned explicitly so that claims about
  network activity can be stated.
-/

/-! ## Constants (`src/constants.ts` and local constants of `wikimedia.ts`) -/

def WIKIMEDIA_API_BASE : String := "https://commons.wikimedia.org/w/api.php"

def CHARACTER_LIMIT : Nat := 25000

def CC0_WIKIDATA_ID : String := "Q6938433"

def MAX_RESULTS_LIMIT : Nat := 50

def THUMBNAIL_SIZE : Nat := 256

def MAX_IMAGES_IN_COMPOSITE : Nat := 15

/-- `MAX_COMPONENT` local constant of `getAspectRatio`. -/
def MAX_COMPONENT : Nat := 21

/-- `COLUMNS` local constant of `generateThumbnailComposite`. -/
def COLUMNS : Nat := 3

/-- `SPACING` local constant of `generateThumbnailComposite`. -/
def SPACING : Nat := 10

/-! ## Raw response data model (`src/types.ts`) -/

/-- A `{ value: string }` wrapper inside `extmetadata`. -/
structure ExtValue where
  value : String
deriving DecidableEq, Repr

structure ExtMetadata where
  ObjectName : Option ExtValue
  Categories : Option ExtValue
  DateTimeOriginal : Option ExtValue
  ImageDescription : Option ExtValue
  Credit : Option ExtValue
  Artist : Option ExtValue
  LicenseShortName : Option ExtValue
  License : Option ExtValue
  UsageTerms : Option ExtValue
  LicenseUrl : Option ExtValue
deriving DecidableEq, Repr

structure ImageInfo where
  thumburl : Option String
  size : Option Nat
  width : Option Nat
  height : Option Nat
  url : Option String
  descriptionurl : Option String
  descriptionshorturl : Option String
  mime : Option String
  extmetadata : Option ExtMetadata
deriving DecidableEq, Repr

structure RawPage where
  pageid : Option Nat
  index : Option Int
  title : Option String
  imageinfo : Option (List ImageInfo)
deriving DecidableEq, Repr

structure WmQuery where
  pages : Option (List RawPage)
deriving DecidableEq, Repr

structure WmError where
  code : String
  info : String
deriving DecidableEq, Repr

structure WikimediaApiResponse where
  query : Option WmQuery
  error : Option WmError
deriving DecidableEq, Repr

/-! ## Output data model (`src/types.ts`) -/

/-- The inline license object `{ name?, usageTerms?, url? }`. -/
structure LicenseObj where
  name : Option String
  usageTerms : Option String
  url : Option String
deriving DecidableEq, Repr

structure ImageMetadata where
  index : Int
  url : String
  size : Option Nat
  width : Nat
  height : Nat
  aspectRatio : String
  caption : Option String
  date : Option String
  descriptionurl : String
  description : Option String
  credit : Option String
  artist : Option String
  license : Option LicenseObj
deriving DecidableEq, Repr

structure SearchResult where
  images : List ImageMetadata
  hasMore : Bool
  nextOffset : Option Nat
deriving DecidableEq, Repr

inductive LicenseType where
  | no_restrictions
  | all
deriving DecidableEq, Repr

/-- `SearchImagesInput` (`src/schemas.ts`). -/
structure SearchImagesInput where
  query : String
  limit : Nat
  offset : Nat
  license : LicenseType
  include_thumbnails : Bool
deriving DecidableEq, Repr

/-! ## String helpers (`truncateString`, `stripHtml`) -/

/-- `truncateString` of `wikimedia.ts`: `undefined`/empty in, `undefined` out;
otherwise truncate to `maxLength` characters with an ellipsis marker. -/
def truncateString (str : Option String) (maxLength : Nat) : Option String :=
  match str with
  | none => none
  | some s =>
    if s = "" then none
    else if s.length ≤ maxLength then some s
    else some (String.mk (s.toList.take maxLength) ++ "...")

/-- Worker for `stripHtml`: remove every maximal `<...>` segment, exactly as
the global regex `/<[^>]*>/g` does (a `<` with no later `>` matches nothing
and everything from it on is kept). -/
def stripHtmlAux (l : List Char) : List Char :=
  match l with
  | [] => []
  | c :: rest =>
    if c = '<' ∧ rest.any (· = '>') then
      stripHtmlAux ((rest.dropWhile (· ≠ '>')).tail)
    else c :: stripHtmlAux rest
termination_by l.length
decreasing_by
  · have h1 := (List.dropWhile_sublist (l := rest) (p := fun x => decide (x ≠ '>'))).length_le
    have h2 := List.length_tail (rest.dropWhile (· ≠ '>'))
    simp only [List.length_cons]
    omega
  · simp [List.length_cons]

/-- `stripHtml` of `wikimedia.ts`. -/
def stripHtml (html : Option String) : Option String :=
  match html with
  | none => none
  | some s => if s = "" then none else some (String.mk (stripHtmlAux s.toList))

/-! ## Aspect ratio (`getAspectRatio`) -/

/-- The local recursive `gcd` of `getAspectRatio`:
`(a, b) => (b === 0 ? a : gcd(b, a % b))`. -/
def gcdJS (a b : Nat) : Nat :=
  if h : b = 0 then a else gcdJS b (a % b)
termination_by b
decreasing_by exact Nat.mod_lt _ (Nat.pos_of_ne_zero h)

/-- `Math.min(MAX_COMPONENT, Math.max(1, Math.round(targetRatio * h)))`. -/
def clampRound (targetRatio : ℚ) (h : Nat) : Nat :=
  (min (MAX_COMPONENT : Int) (max 1 (round (targetRatio * (h : ℚ))))).toNat

/-- `Math.abs(w / h - targetRatio)`. -/
def approxDelta (targetRatio : ℚ) (w h : Nat) : ℚ :=
  |(w : ℚ) / (h : ℚ) - targetRatio|

/-- One iteration of the `for (let h = 1; h <= MAX_COMPONENT; h++)` loop of
`getAspectRatio`, acting on `(smallestDelta, bestPair)`; the initial
`Number.POSITIVE_INFINITY` is modelled by `none`. -/
def scanStep (targetRatio : ℚ) (acc : Option ℚ × (Nat × Nat)) (h : Nat) :
    Option ℚ × (Nat × Nat) :=
  let w := clampRound targetRatio h
  let delta := approxDelta targetRatio w h
  match acc.1 with
  | none => (some delta, (w, h))
  | some best => if delta < best then (some delta, (w, h)) else acc

/-- The loop range `h = 1, …, MAX_COMPONENT`. -/
def hRange : List Nat := (List.range MAX_COMPONENT).map (· + 1)

/-- `getAspectRatio` of `wikimedia.ts`. -/
def getAspectRatio (width height : Nat) : String :=
  if width = 0 ∨ height = 0 then "unknown"
  else
    let divisor := gcdJS width height
    let reducedWidth := width / divisor
    let reducedHeight := height / divisor
    if reducedWidth ≤ MAX_COMPONENT ∧ reducedHeight ≤ MAX_COMPONENT then
      toString reducedWidth ++ ":" ++ toString reducedHeight
    else
      let targetRatio : ℚ := (width : ℚ) / (height : ℚ)
      let best := (hRange.foldl (scanStep targetRatio) (none, (reducedWidth, reducedHeight))).2
      "≈" ++ toString best.1 ++ ":" ++ toString best.2

/-! ### Specification-side aspect ratio

The following definitions follow the wording of the specification
(§4.2 of `spec.md`): compute the minimum of `|w/h − target_ratio|` over all
candidate pairs, then take the first candidate attaining it. -/

/-- Minimum of the deltas of a candidate list, seeded with `b`. -/
def minDelta (b : ℚ) (l : List (ℚ × (Nat × Nat))) : ℚ :=
  l.foldl (fun m e => min m e.1) b

/-- First candidate whose delta equals `m` (`dflt` if none does). -/
def firstAt (l : List (ℚ × (Nat × Nat))) (m : ℚ) (dflt : Nat × Nat) : Nat × Nat :=
  ((l.find? fun e => decide (e.1 = m)).map (·.2)).getD dflt

/-- All candidate pairs of the spec's search: `h` ascending from 1 to the
bound, `w = round(target_ratio * h)` clamped to `[1, bound]`, each tagged
with its delta `|w/h − target_ratio|`. -/
def specCandidates (targetRatio : ℚ) : List (ℚ × (Nat × Nat)) :=
  hRange.map fun h =>
    let w := clampRound targetRatio h
    (approxDelta targetRatio w h, (w, h))

/-- The pair the spec's words select: the first candidate minimizing the
delta (first encountered pair wins ties, scanning `h` ascending). -/
def specBestPair (targetRatio : ℚ) (dflt : Nat × Nat) : Nat × Nat :=
  match specCandidates targetRatio with
  | [] => dflt
  | c :: cs => firstAt (c :: cs) (minDelta c.1 cs) dflt

/-- `approximateRatio` as worded in §4.2 of the spec. -/
def specAspectRatio (width height : Nat) : String :=
  if width = 0 ∨ height = 0 then "unknown"
  else
    let g := Nat.gcd width height
    let rw := width / g
    let rh := height / g
    if rw ≤ MAX_COMPONENT ∧ rh ≤ MAX_COMPONENT then
      toString rw ++ ":" ++ toString rh
    else
      let t : ℚ := (width : ℚ) / (height : ℚ)
      let p := specBestPair t (rw, rh)
      "≈" ++ toString p.1 ++ ":" ++ toString p.2

/-! ## Response normalizer (`parseWikimediaResponse`) -/

/-- The sort key of `rawPages.sort((a, b) => (a.index ?? 0) - (b.index ?? 0))`:
a missing ordinal is treated as 0. -/
def pageKey (p : RawPage) : Int := p.index.getD 0

/-- The in-place `rawPages.sort(...)`, modelled by the stable
`List.insertionSort` (JavaScript's `Array.prototype.sort` is stable). -/
def sortPages (ps : List RawPage) : List RawPage :=
  List.insertionSort (fun a b => pageKey a ≤ pageKey b) ps

/-- The page list of a document, `[]` when absent. -/
def pagesOf (resp : WikimediaApiResponse) : List RawPage :=
  (resp.query.bind (·.pages)).getD []

/-- The pagination window of `parseWikimediaResponse`: sort the raw pages by
ordinal, then `slice(startIndex, endIndex)` with both bounds clamped to the
list length (`Math.min`). -/
def windowPages (resp : WikimediaApiResponse) (params : SearchImagesInput) :
    List RawPage :=
  let sorted := sortPages (pagesOf resp)
  let startIndex := min params.offset sorted.length
  let endIndex := min (params.offset + params.limit) sorted.length
  (sorted.drop startIndex).take (endIndex - startIndex)

/-- The value of a truthiness-tested `extmetadata?.Field?.value` chain:
the empty string stands for "absent or falsy". -/
def extStr (em : Option ExtMetadata) (sel : ExtMetadata → Option ExtValue) : String :=
  ((em.bind sel).map (·.value)).getD ""

/-- An optional free-text field assigned as
`if (extmetadata?.F?.value) { const t = truncateString(v, max); if (t) x = t }`. -/
def optText (em : Option ExtMetadata) (sel : ExtMetadata → Option ExtValue)
    (maxLength : Nat) : Option String :=
  let v := extStr em sel
  if v ≠ "" then truncateString (some v) maxLength else none

/-- Like `optText` but with `stripHtml` applied before truncation. -/
def optTextStripped (em : Option ExtMetadata) (sel : ExtMetadata → Option ExtValue)
    (maxLength : Nat) : Option String :=
  let v := extStr em sel
  if v ≠ "" then truncateString (stripHtml (some v)) maxLength else none

/-- The body of the `for (const page of slicedPages)` loop of
`parseWikimediaResponse` (lines 168–272): `none` models `continue`. -/
def buildRecord (page : RawPage) : Option ImageMetadata :=
  match page.imageinfo with
  | none => none
  | some [] => none
  | some (info :: _) =>
    if info.thumburl.getD "" = "" ∨ info.width.getD 0 = 0 ∨ info.height.getD 0 = 0 then
      none
    else
      let em := info.extmetadata
      let licenseName :=
        if extStr em (·.LicenseShortName) ≠ "" then
          truncateString (some (extStr em (·.LicenseShortName))) 100
        else if extStr em (·.License) ≠ "" then
          truncateString (some (extStr em (·.License))) 100
        else none
      let licenseUsageTerms := optTextStripped em (·.UsageTerms) 500
      let licenseUrl :=
        if extStr em (·.LicenseUrl) ≠ "" then some (extStr em (·.LicenseUrl)) else none
      some {
        index := page.index.getD 0
        url := info.thumburl.getD ""
        size := info.size
        width := info.width.getD 0
        height := info.height.getD 0
        aspectRatio := getAspectRatio (info.width.getD 0) (info.height.getD 0)
        caption := optText em (·.ObjectName) 500
        date := optTextStripped em (·.DateTimeOriginal) 500
        descriptionurl := info.descriptionshorturl.getD ""
        description := optTextStripped em (·.ImageDescription) 500
        credit := optTextStripped em (·.Credit) 500
        artist := optTextStripped em (·.Artist) 500
        license :=
          if licenseName.isSome ∨ licenseUsageTerms.isSome ∨ licenseUrl.isSome then
            some { name := licenseName, usageTerms := licenseUsageTerms, url := licenseUrl }
          else none
      }

/-- `parseWikimediaResponse` of `wikimedia.ts`.  The second component of the
result is the document after the call: `rawPages.sort(...)` mutates the
`query.pages` array in place, and that mutation is made explicit here. -/
def parseWikimediaResponse (resp : WikimediaApiResponse) (params : SearchImagesInput) :
    Except String SearchResult × WikimediaApiResponse :=
  match resp.error with
  | some e => (Except.error ("Wikimedia API error: " ++ e.info), resp)
  | none =>
    match resp.query with
    | none => (Except.ok { images := [], hasMore := false, nextOffset := none }, resp)
    | some q =>
      match q.pages with
      | none => (Except.ok { images := [], hasMore := false, nextOffset := none }, resp)
      | some ps =>
        if ps.isEmpty then
          (Except.ok { images := [], hasMore := false, nextOffset := none }, resp)
        else
          let sorted := sortPages ps
          let mutated : WikimediaApiResponse :=
            { resp with query := some { q with pages := some sorted } }
          let hasMore := decide (params.offset + params.limit < sorted.length)
          let slicedPages := windowPages resp params
          let images := slicedPages.filterMap buildRecord
          (Except.ok {
            images := images
            hasMore := hasMore
            nextOffset := if hasMore then some (params.offset + params.limit) else none
          }, mutated)

/-! ## Thumbnail URL and width helpers -/

/-- `calculateThumbnailWidth` of `wikimedia.ts`. -/
def calculateThumbnailWidth (width height : Nat) : Nat :=
  if height > width then
    (round ((width : ℚ) * ((THUMBNAIL_SIZE : ℚ) / (height : ℚ)))).toNat
  else
    THUMBNAIL_SIZE

/-- Worker for `replaceUrlWidth`: scan left to right for the first position
matching the pattern "slash, nonempty digit run, then `px-`" and splice in
the new width there; an unmatched string is returned unchanged.  Because a
digit cannot start `px-`, the regex's backtracking matches exactly a
maximal digit run followed by `px-`. -/
def replaceUrlWidthAux (newWidth : Nat) (l : List Char) : List Char :=
  match l with
  | [] => []
  | c :: rest =>
    if c = '/' then
      let ds := rest.takeWhile Char.isDigit
      if ds ≠ [] ∧ (rest.drop ds.length).take 3 = ['p', 'x', '-'] then
        '/' :: ((toString newWidth).toList ++ 'p' :: 'x' :: '-' :: rest.drop (ds.length + 3))
      else '/' :: replaceUrlWidthAux newWidth rest
    else c :: replaceUrlWidthAux newWidth rest

/-- `replaceUrlWidth` of `wikimedia.ts`: replace the first width segment of
a Wikimedia thumbnail URL (e.g. `256px-` after a slash) with the new
width. -/
def replaceUrlWidth (url : String) (newWidth : Nat) : String :=
  String.mk (replaceUrlWidthAux newWidth url.toList)

/-! ## Thumbnail composite (`generateThumbnailComposite`) -/

/-- Bytes of a fetched-and-resized thumbnail (opaque to the algorithm). -/
def Buffer := List Nat
deriving DecidableEq, Repr

/-- `Buffer.from(svgString)`: an injective byte view of a string. -/
def bufferFromString (s : String) : Buffer :=
  s.toList.map Char.toNat

/-- One HTTP request the compositor issues: the position of the item in the
retained (capped) list and the URL fetched. -/
structure FetchRequest where
  position : Nat
  url : String
deriving DecidableEq, Repr

/-- One entry of the `.composite([...])` list: a buffer placed at
`top`/`left` on the canvas. -/
structure Layer where
  input : Buffer
  top : Nat
  left : Nat
deriving DecidableEq, Repr

/-- The external collaborators of `generateThumbnailComposite`: the
fetch-plus-`sharp`-resize of one thumbnail (`none` models a non-ok HTTP
status or any fetch/decode exception, each caught per item), and the
`sharp` canvas / JPEG / base64 encoding of the finished layer list. -/
structure CompositeEnv where
  fetchResize : Nat → String → Option Buffer
  encodeJpegBase64 : Nat → Nat → List Layer → String

/-- The SVG overlay labelling a cell with the 1-based numeral `n`. -/
def svgLabel (n : Nat) : String :=
  "<svg width=\"40\" height=\"30\"><text x=\"20\" y=\"20\" text-anchor=\"middle\" font-family=\"Arial, sans-serif\" font-size=\"20\" font-weight=\"bold\" fill=\"white\" stroke=\"black\" stroke-width=\"2\" paint-order=\"stroke\">"
    ++ toString n ++ "</text></svg>"

/-- The concurrent `limitedImages.map(async (img, index) => ...)` fan-out:
for each retained record, derive the per-item width, rewrite the URL, and
consult the environment for the fetch-and-resize outcome.  Each element
pairs the item's outcome (`none` = failure, logged and absorbed) with the
request it issued; `start` is the index of the first item. -/
def fetchItems (env : CompositeEnv) (imgs : List ImageMetadata) (start : Nat) :
    List (Option (Buffer × Nat) × FetchRequest) :=
  match imgs with
  | [] => []
  | img :: rest =>
    let thumbnailWidth := calculateThumbnailWidth img.width img.height
    let fetchUrl := replaceUrlWidth img.url thumbnailWidth
    ((env.fetchResize start fetchUrl).map fun b => (b, start), { position := start, url := fetchUrl })
      :: fetchItems env rest (start + 1)

/-- The layer list handed to `.composite(...)`: every successful item's
resized buffer at its grid cell (`row = index / COLUMNS`,
`col = index % COLUMNS`), followed by the SVG index-label overlays at a 5px
offset into each occupied cell. -/
def compositeLayers (validImages : List (Buffer × Nat)) : List Layer :=
  (validImages.map fun e =>
    { input := e.1
      top := (e.2 / COLUMNS) * THUMBNAIL_SIZE + (e.2 / COLUMNS + 1) * SPACING
      left := (e.2 % COLUMNS) * THUMBNAIL_SIZE + (e.2 % COLUMNS + 1) * SPACING })
  ++ (validImages.map fun e =>
    { input := bufferFromString (svgLabel (e.2 + 1))
      top := (e.2 / COLUMNS) * THUMBNAIL_SIZE + (e.2 / COLUMNS + 1) * SPACING + 5
      left := (e.2 % COLUMNS) * THUMBNAIL_SIZE + (e.2 % COLUMNS + 1) * SPACING + 5 })

/-- The algorithmic core of `generateThumbnailComposite`: `none` models the
two early `return ""` paths (no retained items, or zero successes);
otherwise the canvas dimensions and layer list handed to `sharp`.  The
second component is the list of HTTP requests issued. -/
def compositeResult (env : CompositeEnv) (images : List ImageMetadata) :
    Option (Nat × Nat × List Layer) × List FetchRequest :=
  let limitedImages := images.take MAX_IMAGES_IN_COMPOSITE
  if limitedImages.isEmpty then (none, [])
  else
    let rows := (limitedImages.length + COLUMNS - 1) / COLUMNS
    let canvasWidth := COLUMNS * THUMBNAIL_SIZE + (COLUMNS + 1) * SPACING
    let canvasHeight := rows * THUMBNAIL_SIZE + (rows + 1) * SPACING
    let fetched := fetchItems env limitedImages 0
    let requests := fetched.map (·.2)
    let validImages := (fetched.map (·.1)).filterMap id
    if validImages.isEmpty then (none, requests)
    else (some (canvasWidth, canvasHeight, compositeLayers validImages), requests)

/-- `generateThumbnailComposite` of `wikimedia.ts`: the base64 JPEG of the
composite (`""` on the two early-return paths), together with the list of
HTTP requests issued. -/
def generateThumbnailComposite (env : CompositeEnv) (images : List ImageMetadata) :
    String × List FetchRequest :=
  match compositeResult env images with
  | (none, reqs) => ("", reqs)
  | (some (w, h, layers), reqs) => (env.encodeJpegBase64 w h layers, reqs)

/-- The scan's fold step, over precomputed `(delta, pair)` candidates. -/
def selStep (acc : Option ℚ × (Nat × Nat)) (e : ℚ × (Nat × Nat)) :
    Option ℚ × (Nat × Nat) :=
  match acc.1 with
  | none => (some e.1, e.2)
  | some best => if e.1 < best then (some e.1, e.2) else acc

/-! ## Ordering instances for the page sort -/

instance : IsTotal RawPage (fun a b => pageKey a ≤ pageKey b) :=
  ⟨fun a b => le_total _ _⟩

instance : IsTrans RawPage (fun a b => pageKey a ≤ pageKey b) :=
  ⟨fun _ _ _ hab hbc => le_trans hab hbc⟩

/-! ## Usable pages (the spec's emission condition) -/

/-- The spec's notion of a usable page: a first image-info entry whose
thumbnail URL, width and height are all usable (truthy). -/
def usablePage (page : RawPage) : Bool :=
  match page.imageinfo with
  | some (info :: _) =>
    decide (info.thumburl.getD "" ≠ "" ∧ info.width.getD 0 ≠ 0 ∧ info.height.getD 0 ≠ 0)
  | _ => false

/-- The (thumbnail URL, width, height) triple of a page's first image-info
entry (defaults if absent). -/
def pageUWH (page : RawPage) : String × Nat × Nat :=
  match page.imageinfo with
  | some (info :: _) => (info.thumburl.getD "", info.width.getD 0, info.height.getD 0)
  | _ => ("", 0, 0)

/-! ## Concrete fixtures for the witnesses -/

/-- A metadata-free page carrying only an ordinal. -/
def exPage (i : Int) : RawPage :=
  { pageid := none, index := some i, title := none, imageinfo := none }

/-- A usable image-info entry (1×1 thumbnail, no extended metadata). -/
def exInfo : ImageInfo :=
  { thumburl := some "https://upload.wikimedia.org/x/256px-a.jpg", size := some 1000,
    width := some 1, height := some 1, url := none, descriptionurl := none,
    descriptionshorturl := some "https://w.wiki/abc", mime := some "image/jpeg",
    extmetadata := none }

/-- A usable page with ordinal `i`. -/
def exPageU (i : Int) : RawPage :=
  { pageid := some 1, index := some i, title := some "File:A.jpg",
    imageinfo := some [exInfo] }

/-- The record `buildRecord` produces for `exPageU i`. -/
def exRecord (i : Int) : ImageMetadata :=
  { index := i, url := "https://upload.wikimedia.org/x/256px-a.jpg", size := some 1000,
    width := 1, height := 1, aspectRatio := getAspectRatio 1 1, caption := none,
    date := none, descriptionurl := "https://w.wiki/abc", description := none,
    credit := none, artist := none, license := none }

def exParamsA : SearchImagesInput :=
  { query := "cats", limit := 1, offset := 0, license := LicenseType.all,
    include_thumbnails := true }

def exRespA : WikimediaApiResponse :=
  { query := some { pages := some [exPage 2, exPage 1, exPage 3] }, error := none }

def exResultA : SearchResult := { images := [], hasMore := true, nextOffset := some 1 }

def exParamsB : SearchImagesInput :=
  { query := "dogs", limit := 2, offset := 0, license := LicenseType.all,
    include_thumbnails := true }

def exRespB : WikimediaApiResponse :=
  { query := some { pages := some [exPageU 2, exPageU 1] }, error := none }

def exResultB : SearchResult :=
  { images := [exRecord 1, exRecord 2], hasMore := false, nextOffset := none }

/-- A document whose pages are already ordinal-sorted. -/
def exRespSorted : WikimediaApiResponse :=
  { query := some { pages := some [exPage 1, exPage 2] }, error := none }

/-- A document carrying an explicit error field and out-of-order pages. -/
def exRespErr : WikimediaApiResponse :=
  { query := some { pages := some [exPage 2, exPage 1] },
    error := some { code := "badquery", info := "boom" } }

/-- A document with an empty page list. -/
def exRespEmpty : WikimediaApiResponse :=
  { query := some { pages := some [] }, error := none }

/-! ## Concrete composite fixtures and witnesses -/

def exUrl : String := "https://upload.wikimedia.org/x/256px-a.jpg"

/-- Every fetch succeeds; the encoder returns a fixed non-empty base64. -/
def exEnv : CompositeEnv :=
  { fetchResize := fun _ _ => some [7], encodeJpegBase64 := fun _ _ _ => "jpeg64" }

/-- Every fetch fails. -/
def exEnvFail : CompositeEnv :=
  { fetchResize := fun _ _ => none, encodeJpegBase64 := fun _ _ _ => "jpeg64" }

/-- Only the item at position 0 succeeds. -/
def exEnvPartial : CompositeEnv :=
  { fetchResize := fun i _ => if i = 0 then some [7] else none,
    encodeJpegBase64 := fun _ _ _ => "jpeg64" }

def exManyImages : List ImageMetadata := List.replicate 20 (exRecord 1)

/-! ## Width-segment decompositions -/

/-- `s` decomposes as `a ++ "/" ++ ds ++ "px-" ++ b` with `ds` a nonempty
run of digits: a width segment occurs right after `a`. -/
def IsWidthSeg (s a ds b : List Char) : Prop :=
  s = a ++ '/' :: (ds ++ 'p' :: 'x' :: '-' :: b) ∧ ds ≠ [] ∧ ∀ c ∈ ds, c.isDigit

/-- `s` contains a substring of the form `"/<digits>px-"`. -/
def HasWidthSeg (s : List Char) : Prop := ∃ a ds b, IsWidthSeg s a ds b

/-! ## Lemmas: gcd and the aspect-ratio scan -/

lemma gcdJS_eq_gcd (a b : Nat) : gcdJS a b = Nat.gcd a b := by
  induction b using Nat.strong_induction_on generalizing a with
  | _ b ih =>
    rw [gcdJS]
    split
    · next h => subst h; simp
    · next h =>
      rw [ih (a % b) (Nat.mod_lt _ (Nat.pos_of_ne_zero h))]
      rw [Nat.gcd_comm b (a % b), ← Nat.gcd_rec, Nat.gcd_comm]

lemma scan_foldl_eq (t : ℚ) (a : Option ℚ × (Nat × Nat)) :
    hRange.foldl (scanStep t) a = (specCandidates t).foldl selStep a := by
  rw [specCandidates, List.foldl_map]
  rfl

lemma minDelta_cons (b : ℚ) (e : ℚ × (Nat × Nat)) (t : List (ℚ × (Nat × Nat))) :
    minDelta b (e :: t) = minDelta (min b e.1) t := rfl

lemma minDelta_le (b : ℚ) (l : List (ℚ × (Nat × Nat))) : minDelta b l ≤ b := by
  induction l generalizing b with
  | nil => simp [minDelta]
  | cons e t ih =>
    rw [minDelta_cons]
    exact le_trans (ih (min b e.1)) (min_le_left _ _)

lemma minDelta_mem (b : ℚ) (l : List (ℚ × (Nat × Nat))) :
    minDelta b l = b ∨ minDelta b l ∈ l.map (·.1) := by
  induction l generalizing b with
  | nil => left; rfl
  | cons e t ih =>
    rw [minDelta_cons]
    rcases ih (min b e.1) with h | h
    · rcases min_choice b e.1 with hm | hm
      · left; rw [h, hm]
      · right; rw [h, hm]; simp
    · right
      rw [List.map_cons]
      exact List.mem_cons_of_mem _ h

lemma firstAt_congr {l : List (ℚ × (Nat × Nat))} {m : ℚ} (d d' : Nat × Nat)
    (h : m ∈ l.map (·.1)) : firstAt l m d = firstAt l m d' := by
  have hs : (l.find? fun e => decide (e.1 = m)).isSome := by
    rw [List.find?_isSome]
    rcases List.mem_map.mp h with ⟨e, he, hm⟩
    exact ⟨e, he, by simp [hm]⟩
  rcases Option.isSome_iff_exists.mp hs with ⟨e, he⟩
  simp [firstAt, he]

lemma firstAt_cons_ne {e : ℚ × (Nat × Nat)} {t : List (ℚ × (Nat × Nat))} {m : ℚ}
    (d : Nat × Nat) (h : e.1 ≠ m) : firstAt (e :: t) m d = firstAt t m d := by
  simp [firstAt, List.find?_cons, h]

lemma firstAt_cons_eq {e : ℚ × (Nat × Nat)} {t : List (ℚ × (Nat × Nat))} {m : ℚ}
    (d : Nat × Nat) (h : e.1 = m) : firstAt (e :: t) m d = e.2 := by
  simp [firstAt, List.find?_cons, h]

lemma selFold_some (l : List (ℚ × (Nat × Nat))) (b : ℚ) (p : Nat × Nat) :
    l.foldl selStep (some b, p)
      = (some (minDelta b l),
         if minDelta b l < b then firstAt l (minDelta b l) p else p) := by
  induction l generalizing b p with
  | nil => simp [minDelta, firstAt]
  | cons e t ih =>
    rw [List.foldl_cons, minDelta_cons]
    by_cases hlt : e.1 < b
    · have hsel : selStep (some b, p) e = (some e.1, e.2) := by
        simp [selStep, hlt]
      rw [hsel, ih, min_eq_right hlt.le]
      have hle : minDelta e.1 t ≤ e.1 := minDelta_le _ _
      by_cases hlt2 : minDelta e.1 t < e.1
      · have hcond : minDelta e.1 t < b := lt_trans hlt2 hlt
        have hne : e.1 ≠ minDelta e.1 t := (ne_of_lt hlt2).symm
        have hmem : minDelta e.1 t ∈ t.map (·.1) := by
          rcases minDelta_mem e.1 t with h | h
          · exact absurd h (ne_of_lt hlt2)
          · exact h
        rw [if_pos hlt2, if_pos hcond, firstAt_cons_ne p hne, firstAt_congr e.2 p hmem]
      · have hm : minDelta e.1 t = e.1 := le_antisymm hle (not_lt.mp hlt2)
        rw [if_neg hlt2, hm, if_pos hlt, firstAt_cons_eq p rfl]
    · have hsel : selStep (some b, p) e = (some b, p) := by
        simp [selStep, hlt]
      rw [hsel, ih, min_eq_left (not_lt.mp hlt)]
      by_cases hlt2 : minDelta b t < b
      · have hne : e.1 ≠ minDelta b t := by
          intro hh
          exact hlt (hh ▸ lt_of_lt_of_le hlt2 le_rfl)
        rw [if_pos hlt2, if_pos hlt2, firstAt_cons_ne p hne]
      · rw [if_neg hlt2, if_neg hlt2]

lemma selFold_cons (c : ℚ × (Nat × Nat)) (cs : List (ℚ × (Nat × Nat))) (p0 : Nat × Nat) :
    ((c :: cs).foldl selStep (none, p0)).2 = firstAt (c :: cs) (minDelta c.1 cs) p0 := by
  have hstep : selStep (none, p0) c = (some c.1, c.2) := rfl
  rw [List.foldl_cons, hstep, selFold_some]
  have hle : minDelta c.1 cs ≤ c.1 := minDelta_le _ _
  by_cases hlt : minDelta c.1 cs < c.1
  · have hne : c.1 ≠ minDelta c.1 cs := (ne_of_lt hlt).symm
    have hmem : minDelta c.1 cs ∈ cs.map (·.1) := by
      rcases minDelta_mem c.1 cs with h | h
      · exact absurd h (ne_of_lt hlt)
      · exact h
    rw [if_pos hlt, firstAt_cons_ne p0 hne, firstAt_congr c.2 p0 hmem]
  · have hm : minDelta c.1 cs = c.1 := le_antisymm hle (not_lt.mp hlt)
    rw [if_neg hlt, hm, firstAt_cons_eq p0 rfl]

lemma scanResult_eq_specBestPair (t : ℚ) (dflt : Nat × Nat) :
    (hRange.foldl (scanStep t) (none, dflt)).2 = specBestPair t dflt := by
  cases h : specCandidates t with
  | nil =>
    exfalso
    have hr : hRange = [] := by
      have := congrArg List.length h
      simpa [specCandidates] using this
    simp [hRange, MAX_COMPONENT] at hr
  | cons c cs =>
    rw [scan_foldl_eq, h, specBestPair, h]
    exact selFold_cons c cs dflt

/-- C2: for all integer inputs, `getAspectRatio` behaves exactly as the spec
words it: a non-positive dimension gives `"unknown"`; a reduced pair within
the bound gives the exact `"w:h"`; otherwise the label is `"≈w:h"` for the
first pair minimizing `|w/h − width/height|` over the ascending scan
`h = 1..21` with `w = round(ratio*h)` clamped to `[1, 21]`; in particular
`getAspectRatio 4 3 = "4:3"` and `getAspectRatio 0 100 = "unknown"`. -/
theorem getAspectRatio_matches_spec :
    (∀ w h : Nat, getAspectRatio w h = specAspectRatio w h)
    ∧ getAspectRatio 4 3 = "4:3" ∧ getAspectRatio 0 100 = "unknown" := by
  have main : ∀ w h : Nat, getAspectRatio w h = specAspectRatio w h := by
    intro w h
    simp only [getAspectRatio, specAspectRatio, gcdJS_eq_gcd]
    by_cases h0 : w = 0 ∨ h = 0
    · simp [h0]
    · simp only [if_neg h0]
      by_cases hb : w / Nat.gcd w h ≤ MAX_COMPONENT ∧ h / Nat.gcd w h ≤ MAX_COMPONENT
      · simp only [if_pos hb]
      · simp only [if_neg hb]
        rw [scanResult_eq_specBestPair]
  exact ⟨main, (main 4 3).trans (by decide), by decide⟩

lemma sortPages_perm (ps : List RawPage) : (sortPages ps).Perm ps :=
  List.perm_insertionSort _ ps

lemma sortPages_length (ps : List RawPage) : (sortPages ps).length = ps.length :=
  (sortPages_perm ps).length_eq

lemma sortPages_sorted (ps : List RawPage) :
    List.Sorted (fun a b => pageKey a ≤ pageKey b) (sortPages ps) :=
  List.sorted_insertionSort _ ps

lemma sortPages_of_sorted {ps : List RawPage}
    (h : List.Sorted (fun a b => pageKey a ≤ pageKey b) ps) : sortPages ps = ps :=
  List.Sorted.insertionSort_eq h

/-! ## C1: pagination bookkeeping -/

/-- C1: for a document whose (sorted) page list has length `L`, any offset
and any limit `≥ 1`, the returned page has `hasMore = true` iff
`L > offset + limit`, carries `nextOffset` iff `hasMore`, and in that case
`nextOffset = offset + limit`. -/
theorem parse_pagination (resp : WikimediaApiResponse) (params : SearchImagesInput)
    (r : SearchResult) (hl : 1 ≤ params.limit)
    (hok : (parseWikimediaResponse resp params).1 = Except.ok r) :
    (r.hasMore = true ↔ params.offset + params.limit < (pagesOf resp).length)
    ∧ (r.nextOffset.isSome ↔ r.hasMore = true)
    ∧ (r.hasMore = true → r.nextOffset = some (params.offset + params.limit)) := by
  rcases resp with ⟨q, err⟩
  cases err with
  | some e => simp [parseWikimediaResponse] at hok
  | none =>
    cases q with
    | none =>
      simp only [parseWikimediaResponse, Except.ok.injEq] at hok
      subst hok
      simp [pagesOf]
    | some q' =>
      cases hp : q'.pages with
      | none =>
        simp only [parseWikimediaResponse, hp, Except.ok.injEq] at hok
        subst hok
        simp [pagesOf, hp]
      | some ps =>
        by_cases hemp : ps.isEmpty
        · simp only [parseWikimediaResponse, hp, hemp, if_true, Except.ok.injEq] at hok
          subst hok
          have : ps = [] := List.isEmpty_iff.mp hemp
          subst this
          simp [pagesOf, hp]
        · simp only [parseWikimediaResponse, hp, hemp, Bool.false_eq_true, if_false,
            Except.ok.injEq] at hok
          subst hok
          have hlen : (pagesOf ⟨some q', none⟩).length = ps.length := by
            simp [pagesOf, hp]
          constructor
          · simp [hlen, sortPages_length]
          constructor
          · by_cases hm : params.offset + params.limit < (sortPages ps).length
            · simp [hm]
            · simp [hm]
          · intro hmore
            simp only [decide_eq_true_iff] at hmore
            simp [hmore]

lemma buildRecord_some {page : RawPage} {rec : ImageMetadata}
    (h : buildRecord page = some rec) :
    usablePage page = true ∧ rec.url = (pageUWH page).1 ∧ rec.width = (pageUWH page).2.1
      ∧ rec.height = (pageUWH page).2.2 ∧ rec.index = pageKey page
      ∧ rec.url ≠ "" ∧ 0 < rec.width ∧ 0 < rec.height := by
  match hii : page.imageinfo with
  | none => simp only [buildRecord, hii] at h; exact Option.noConfusion h
  | some [] => simp only [buildRecord, hii] at h; exact Option.noConfusion h
  | some (info :: rest) =>
    simp only [buildRecord, hii] at h
    by_cases hg : info.thumburl.getD "" = "" ∨ info.width.getD 0 = 0 ∨ info.height.getD 0 = 0
    · rw [if_pos hg] at h; exact Option.noConfusion h
    · rw [if_neg hg] at h
      push_neg at hg
      obtain ⟨h1, h2, h3⟩ := hg
      injection h with h
      subst h
      refine ⟨by simp [usablePage, hii, h1, h2, h3], by simp [pageUWH, hii],
        by simp [pageUWH, hii], by simp [pageUWH, hii], rfl, h1,
        Nat.pos_of_ne_zero h2, Nat.pos_of_ne_zero h3⟩

lemma buildRecord_of_usable {page : RawPage} (h : usablePage page = true) :
    ∃ rec, buildRecord page = some rec := by
  match hii : page.imageinfo with
  | none => simp [usablePage, hii] at h
  | some [] => simp [usablePage, hii] at h
  | some (info :: rest) =>
    simp only [usablePage, hii, decide_eq_true_eq] at h
    obtain ⟨h1, h2, h3⟩ := h
    have hs : (buildRecord page).isSome := by
      simp only [buildRecord, hii]
      rw [if_neg (by tauto)]
      rfl
    exact Option.isSome_iff_exists.mp hs

lemma buildRecord_of_not_usable {page : RawPage} (h : usablePage page = false) :
    buildRecord page = none := by
  match hii : page.imageinfo with
  | none => simp [buildRecord, hii]
  | some [] => simp [buildRecord, hii]
  | some (info :: rest) =>
    simp only [usablePage, hii, decide_eq_false_iff_not] at h
    push_neg at h
    simp only [buildRecord, hii]
    by_cases h1 : info.thumburl.getD "" = ""
    · rw [if_pos (Or.inl h1)]
    · by_cases h2 : info.width.getD 0 = 0
      · rw [if_pos (Or.inr (Or.inl h2))]
      · rw [if_pos (Or.inr (Or.inr (h h1 h2)))]

/-- Projecting the emitted records equals projecting the usable pages. -/
lemma filterMap_buildRecord_map {α : Type} (f : ImageMetadata → α) (g : RawPage → α)
    (hfg : ∀ page rec, buildRecord page = some rec → f rec = g page) (l : List RawPage) :
    (l.filterMap buildRecord).map f = (l.filter usablePage).map g := by
  induction l with
  | nil => rfl
  | cons p t ih =>
    rw [List.filterMap_cons, List.filter_cons]
    cases hu : usablePage p with
    | false => rw [buildRecord_of_not_usable hu]; simpa using ih
    | true =>
      obtain ⟨rec, hrec⟩ := buildRecord_of_usable hu
      rw [hrec]
      simp [ih, hfg p rec hrec]

/-- What `parseWikimediaResponse` computes `images` from. -/
lemma parse_ok_images {resp : WikimediaApiResponse} {params : SearchImagesInput}
    {r : SearchResult} (hok : (parseWikimediaResponse resp params).1 = Except.ok r) :
    r.images = (windowPages resp params).filterMap buildRecord := by
  rcases resp with ⟨q, err⟩
  cases err with
  | some e => simp [parseWikimediaResponse] at hok
  | none =>
    cases q with
    | none =>
      simp only [parseWikimediaResponse, Except.ok.injEq] at hok
      subst hok
      simp [windowPages, pagesOf, sortPages, List.insertionSort]
    | some q' =>
      cases hp : q'.pages with
      | none =>
        simp only [parseWikimediaResponse, hp, Except.ok.injEq] at hok
        subst hok
        simp [windowPages, pagesOf, hp, sortPages, List.insertionSort]
      | some ps =>
        by_cases hemp : ps.isEmpty
        · simp only [parseWikimediaResponse, hp, hemp, if_true, Except.ok.injEq] at hok
          subst hok
          have : ps = [] := List.isEmpty_iff.mp hemp
          subst this
          simp [windowPages, pagesOf, hp, sortPages, List.insertionSort]
        · simp only [parseWikimediaResponse, hp, hemp, Bool.false_eq_true, if_false,
            Except.ok.injEq] at hok
          subst hok
          rfl

lemma windowPages_sorted (resp : WikimediaApiResponse) (params : SearchImagesInput) :
    List.Sorted (fun a b => pageKey a ≤ pageKey b) (windowPages resp params) := by
  have h := sortPages_sorted (pagesOf resp)
  exact List.Pairwise.sublist ((List.take_sublist _ _).trans (List.drop_sublist _ _)) h

/-! ## C3 and C4: record emission and ordering -/

/-- C3: within the pagination window, a raw page yields a record iff its
first image-info entry has usable thumbnail URL, width and height; every
emitted record carries that thumbnail URL and positive width and height,
and pages missing any of these never appear in the output. -/
theorem parse_images_usable (resp : WikimediaApiResponse) (params : SearchImagesInput)
    (r : SearchResult) (hok : (parseWikimediaResponse resp params).1 = Except.ok r) :
    (∀ rec ∈ r.images, rec.url ≠ "" ∧ 0 < rec.width ∧ 0 < rec.height)
    ∧ r.images.map (fun rec => (rec.url, rec.width, rec.height))
        = ((windowPages resp params).filter usablePage).map pageUWH := by
  rw [parse_ok_images hok]
  constructor
  · intro rec hrec
    rcases List.mem_filterMap.mp hrec with ⟨page, _, hsome⟩
    obtain ⟨-, -, -, -, -, hu, hw, hh⟩ := buildRecord_some hsome
    exact ⟨hu, hw, hh⟩
  · exact filterMap_buildRecord_map _ _
      (fun page rec hsome => by
        obtain ⟨-, h1, h2, h3, -, -, -, -⟩ := buildRecord_some hsome
        rw [h1, h2, h3]) _

/-- C4: the returned `images` are sorted ascending by the record's ordinal
`index` (missing raw ordinals treated as 0) regardless of input order, and
each record's `index` is the ordinal of its source page in the full set. -/
theorem parse_images_sorted (resp : WikimediaApiResponse) (params : SearchImagesInput)
    (r : SearchResult) (hok : (parseWikimediaResponse resp params).1 = Except.ok r) :
    List.Sorted (fun x y : ImageMetadata => x.index ≤ y.index) r.images
    ∧ r.images.map (·.index) = ((windowPages resp params).filter usablePage).map pageKey := by
  rw [parse_ok_images hok]
  constructor
  · rw [List.Sorted, List.pairwise_filterMap]
    refine (windowPages_sorted resp params).imp ?_
    intro a b hab x hx y hy
    obtain ⟨-, -, -, -, hxa, -, -, -⟩ := buildRecord_some (Option.mem_def.mp hx)
    obtain ⟨-, -, -, -, hyb, -, -, -⟩ := buildRecord_some (Option.mem_def.mp hy)
    rw [hxa, hyb]
    exact hab
  · exact filterMap_buildRecord_map _ _
      (fun page rec hsome => (buildRecord_some hsome).2.2.2.2.1) _

theorem parse_pagination_witness :
    (exResultA.hasMore = true ↔ exParamsA.offset + exParamsA.limit < (pagesOf exRespA).length)
    ∧ (exResultA.nextOffset.isSome ↔ exResultA.hasMore = true)
    ∧ (exResultA.hasMore = true → exResultA.nextOffset = some (exParamsA.offset + exParamsA.limit)) :=
  parse_pagination exRespA exParamsA exResultA (by decide) rfl

theorem parse_images_usable_witness :
    (∀ rec ∈ exResultB.images, rec.url ≠ "" ∧ 0 < rec.width ∧ 0 < rec.height)
    ∧ exResultB.images.map (fun rec => (rec.url, rec.width, rec.height))
        = ((windowPages exRespB exParamsB).filter usablePage).map pageUWH :=
  parse_images_usable exRespB exParamsB exResultB rfl

theorem parse_images_sorted_witness :
    List.Sorted (fun x y : ImageMetadata => x.index ≤ y.index) exResultB.images
    ∧ exResultB.images.map (·.index)
        = ((windowPages exRespB exParamsB).filter usablePage).map pageKey :=
  parse_images_sorted exRespB exParamsB exResultB rfl

/-! ## C9: the in-place sort is observable -/

/-- C9 counterexample: on a document whose pages arrive out of ordinal
order, `parseWikimediaResponse` does not leave the raw document unchanged —
`rawPages.sort(...)` reorders the `query.pages` array in place. -/
theorem parse_mutation_counterexample :
    (parseWikimediaResponse exRespA exParamsA).2 ≠ exRespA := by decide

/-- C9 (amended): `parseWikimediaResponse` is pure except for one frame
effect: it sorts `query.pages` in place by ordinal.  The post-call document
keeps the same error field and the same multiset of pages; when the call
reaches the sort, the pages end up ordinal-sorted; and on every path that
does not reach the sort — a document with an explicit error, or with no or
an empty page list — as well as for pages already sorted by ordinal, the
document is left entirely unchanged. -/
theorem parse_mutation_frame (resp : WikimediaApiResponse) (params : SearchImagesInput) :
    (parseWikimediaResponse resp params).2.error = resp.error
    ∧ (pagesOf (parseWikimediaResponse resp params).2).Perm (pagesOf resp)
    ∧ (resp.error = none → pagesOf resp ≠ [] →
        List.Sorted (fun a b => pageKey a ≤ pageKey b)
          (pagesOf (parseWikimediaResponse resp params).2))
    ∧ (resp.error.isSome → (parseWikimediaResponse resp params).2 = resp)
    ∧ (pagesOf resp = [] → (parseWikimediaResponse resp params).2 = resp)
    ∧ (List.Sorted (fun a b => pageKey a ≤ pageKey b) (pagesOf resp) →
        (parseWikimediaResponse resp params).2 = resp) := by
  rcases resp with ⟨q, err⟩
  cases err with
  | some e =>
    refine ⟨rfl, List.Perm.refl _, ?_, fun _ => rfl, fun _ => rfl, fun _ => rfl⟩
    intro h
    exact absurd h (by simp)
  | none =>
    cases q with
    | none =>
      exact ⟨rfl, List.Perm.refl _, fun _ h => absurd rfl h,
        fun h => absurd h (by simp), fun _ => rfl, fun _ => rfl⟩
    | some q' =>
      cases hp : q'.pages with
      | none =>
        simp only [parseWikimediaResponse, hp]
        exact ⟨by trivial, List.Perm.refl _, fun _ h => absurd (by simp [pagesOf, hp]) h,
          fun h => by simp at h, fun _ => by trivial, fun _ => by trivial⟩
      | some ps =>
        by_cases hemp : ps.isEmpty
        · have hnil : ps = [] := List.isEmpty_iff.mp hemp
          subst hnil
          simp only [parseWikimediaResponse, hp, hemp, if_true]
          exact ⟨by trivial, List.Perm.refl _, fun _ h => absurd (by simp [pagesOf, hp]) h,
            fun h => by simp at h, fun _ => by trivial, fun _ => by trivial⟩
        · simp only [parseWikimediaResponse, hp, hemp, Bool.false_eq_true, if_false]
          have hpof : pagesOf ⟨some q', none⟩ = ps := by simp [pagesOf, hp]
          refine ⟨by trivial, ?_, ?_, ?_, ?_, ?_⟩
          · rw [hpof]
            simpa [pagesOf] using sortPages_perm ps
          · intro _ _
            simpa [pagesOf] using sortPages_sorted ps
          · intro h
            simp at h
          · intro h
            rw [hpof] at h
            exact absurd (List.isEmpty_iff.mpr h) hemp
          · intro hsorted
            rw [hpof] at hsorted
            have heq : sortPages ps = ps := sortPages_of_sorted hsorted
            cases q' with
            | mk pgs =>
              simp only [WmQuery.mk.injEq] at hp
              subst hp
              simp [heq]

theorem parse_mutation_frame_witness :
    (parseWikimediaResponse exRespA exParamsA).2.error = exRespA.error
    ∧ (pagesOf (parseWikimediaResponse exRespA exParamsA).2).Perm (pagesOf exRespA)
    ∧ List.Sorted (fun a b => pageKey a ≤ pageKey b)
        (pagesOf (parseWikimediaResponse exRespA exParamsA).2)
    ∧ (parseWikimediaResponse exRespErr exParamsA).2 = exRespErr
    ∧ (parseWikimediaResponse exRespEmpty exParamsA).2 = exRespEmpty
    ∧ (parseWikimediaResponse exRespSorted exParamsA).2 = exRespSorted :=
  ⟨(parse_mutation_frame exRespA exParamsA).1,
   (parse_mutation_frame exRespA exParamsA).2.1,
   (parse_mutation_frame exRespA exParamsA).2.2.1 rfl (by decide),
   (parse_mutation_frame exRespErr exParamsA).2.2.2.1 rfl,
   (parse_mutation_frame exRespEmpty exParamsA).2.2.2.2.1 rfl,
   (parse_mutation_frame exRespSorted exParamsA).2.2.2.2.2 (by decide)⟩

/-! ## Lemmas: the composite fan-out -/

lemma fetchItems_mem {env : CompositeEnv} {l : List ImageMetadata} {s : Nat}
    {e : Option (Buffer × Nat) × FetchRequest} (he : e ∈ fetchItems env l s) :
    e.1 = (env.fetchResize e.2.position e.2.url).map (fun b => (b, e.2.position))
    ∧ s ≤ e.2.position ∧ e.2.position < s + l.length := by
  induction l generalizing s with
  | nil => simp [fetchItems] at he
  | cons img rest ih =>
    simp only [fetchItems, List.mem_cons] at he
    rcases he with he | he
    · subst he
      exact ⟨rfl, le_refl _, by simp⟩
    · obtain ⟨h1, h2, h3⟩ := ih he
      exact ⟨h1, by omega, by simp only [List.length_cons]; omega⟩

lemma fetchItems_length (env : CompositeEnv) (l : List ImageMetadata) (s : Nat) :
    (fetchItems env l s).length = l.length := by
  induction l generalizing s with
  | nil => rfl
  | cons img rest ih => simp [fetchItems, ih]

lemma fetchItems_req_unique {env : CompositeEnv} {l : List ImageMetadata} {s : Nat}
    {r1 r2 : FetchRequest}
    (h1 : r1 ∈ (fetchItems env l s).map (·.2)) (h2 : r2 ∈ (fetchItems env l s).map (·.2))
    (hpos : r1.position = r2.position) : r1 = r2 := by
  induction l generalizing s with
  | nil => simp [fetchItems] at h1
  | cons img rest ih =>
    simp only [fetchItems, List.map_cons, List.mem_cons] at h1 h2
    rcases h1 with h1 | h1 <;> rcases h2 with h2 | h2
    · rw [h1, h2]
    · exfalso
      rcases List.mem_map.mp h2 with ⟨e, he, hr⟩
      have := (fetchItems_mem he).2.1
      rw [hr] at this
      rw [h1] at hpos
      simp at hpos
      omega
    · exfalso
      rcases List.mem_map.mp h1 with ⟨e, he, hr⟩
      have := (fetchItems_mem he).2.1
      rw [hr] at this
      rw [h2] at hpos
      simp at hpos
      omega
    · exact ih h1 h2

/-- Zero successes happen exactly when every issued request's
fetch-and-resize fails. -/
lemma valid_empty_iff (env : CompositeEnv) (l : List ImageMetadata) (s : Nat) :
    ((fetchItems env l s).map (·.1)).filterMap id = []
      ↔ ∀ req ∈ (fetchItems env l s).map (·.2),
          env.fetchResize req.position req.url = none := by
  rw [List.filterMap_eq_nil]
  constructor
  · intro hall req hreq
    rcases List.mem_map.mp hreq with ⟨e, he, hr⟩
    have h1 := (fetchItems_mem he).1
    have h2 := hall e.1 (List.mem_map_of_mem _ he)
    simp only [id_eq] at h2
    rw [h2] at h1
    rw [← hr]
    exact (Option.map_eq_none'.mp h1.symm)
  · intro hnone o ho
    rcases List.mem_map.mp ho with ⟨e, he, hr⟩
    have h1 := (fetchItems_mem he).1
    have h2 := hnone e.2 (List.mem_map_of_mem _ he)
    rw [h2] at h1
    rw [← hr, h1]
    rfl

lemma gen_reqs (env : CompositeEnv) (images : List ImageMetadata) :
    (generateThumbnailComposite env images).2 = (compositeResult env images).2 := by
  rcases h : compositeResult env images with ⟨o, reqs⟩
  cases o <;> simp [generateThumbnailComposite, h]

/-- Unfolding of a successful `compositeResult`. -/
lemma compositeResult_some {env : CompositeEnv} {images : List ImageMetadata}
    {w h : Nat} {layers : List Layer} {reqs : List FetchRequest}
    (hcr : compositeResult env images = (some (w, h, layers), reqs)) :
    reqs = (fetchItems env (images.take MAX_IMAGES_IN_COMPOSITE) 0).map (·.2)
    ∧ layers = compositeLayers
        (((fetchItems env (images.take MAX_IMAGES_IN_COMPOSITE) 0).map (·.1)).filterMap id) := by
  by_cases hemp : (images.take MAX_IMAGES_IN_COMPOSITE).isEmpty
  · rw [compositeResult, if_pos hemp] at hcr
    exact absurd (congrArg Prod.fst hcr) (by simp)
  · rw [compositeResult, if_neg hemp] at hcr
    by_cases hv : (((fetchItems env (images.take MAX_IMAGES_IN_COMPOSITE) 0).map (·.1)).filterMap id).isEmpty
    · rw [if_pos hv] at hcr
      exact absurd (congrArg Prod.fst hcr) (by simp)
    · rw [if_neg hv] at hcr
      have h1 := congrArg Prod.fst hcr
      have h2 := congrArg Prod.snd hcr
      simp only [Option.some.injEq, Prod.mk.injEq] at h1
      exact ⟨h2.symm, h1.2.2.symm⟩

/-- The request list of `compositeResult` on a retained nonempty input. -/
lemma compositeResult_reqs (env : CompositeEnv) (images : List ImageMetadata) :
    (compositeResult env images).2
      = (fetchItems env (images.take MAX_IMAGES_IN_COMPOSITE) 0).map (·.2)
      ∨ ((compositeResult env images).2 = [] ∧ images.take MAX_IMAGES_IN_COMPOSITE = []) := by
  by_cases hemp : (images.take MAX_IMAGES_IN_COMPOSITE).isEmpty
  · right
    rw [compositeResult, if_pos hemp]
    exact ⟨rfl, List.isEmpty_iff.mp hemp⟩
  · left
    rw [compositeResult, if_neg hemp]
    by_cases hv : (((fetchItems env (images.take MAX_IMAGES_IN_COMPOSITE) 0).map (·.1)).filterMap id).isEmpty
    · rw [if_pos hv]
    · rw [if_neg hv]

/-! ## C5 and C6: failure semantics and the item cap -/

/-- C5: the composite is the empty string on an empty input (with no
request issued), and when every issued request fails; an individual
failure never aborts the call (the embedding is total and failures are
per-item options), and one success suffices for non-empty output,
provided the external JPEG/base64 encoder never returns empty bytes. -/
theorem composite_empty_and_failure (env : CompositeEnv) (images : List ImageMetadata)
    (henc : ∀ w h layers, env.encodeJpegBase64 w h layers ≠ "") :
    (generateThumbnailComposite env []).1 = ""
    ∧ (generateThumbnailComposite env []).2 = []
    ∧ ((∀ req ∈ (generateThumbnailComposite env images).2,
          env.fetchResize req.position req.url = none) →
        (generateThumbnailComposite env images).1 = "")
    ∧ ((∃ req ∈ (generateThumbnailComposite env images).2,
          (env.fetchResize req.position req.url).isSome) →
        (generateThumbnailComposite env images).1 ≠ "") := by
  refine ⟨rfl, rfl, ?_, ?_⟩
  · intro hall
    by_cases hemp : (images.take MAX_IMAGES_IN_COMPOSITE).isEmpty
    · rw [generateThumbnailComposite, compositeResult, if_pos hemp]
    · rw [gen_reqs] at hall
      rcases compositeResult_reqs env images with hr | ⟨-, hr2⟩
      · rw [hr] at hall
        have hv : (((fetchItems env (images.take MAX_IMAGES_IN_COMPOSITE) 0).map (·.1)).filterMap id) = [] :=
          (valid_empty_iff env _ 0).mpr hall
        rw [generateThumbnailComposite, compositeResult, if_neg hemp,
          if_pos (by rw [hv]; rfl)]
      · exact absurd hr2 (by simpa [List.isEmpty_iff] using hemp)
  · intro hex
    rcases hex with ⟨req, hreq, hsome⟩
    rw [gen_reqs] at hreq
    by_cases hemp : (images.take MAX_IMAGES_IN_COMPOSITE).isEmpty
    · rw [compositeResult, if_pos hemp] at hreq
      simp at hreq
    · rcases compositeResult_reqs env images with hr | ⟨-, hr2⟩
      · rw [hr] at hreq
        have hv : ¬ (((fetchItems env (images.take MAX_IMAGES_IN_COMPOSITE) 0).map (·.1)).filterMap id) = [] := by
          intro hnil
          have := (valid_empty_iff env _ 0).mp hnil req hreq
          rw [this] at hsome
          simp at hsome
        rw [generateThumbnailComposite, compositeResult, if_neg hemp,
          if_neg (by simpa [List.isEmpty_iff] using hv)]
        exact henc _ _ _
      · exact absurd hr2 (by simpa [List.isEmpty_iff] using hemp)

/-- C6: at most the first 15 records (`MAX_IMAGES_IN_COMPOSITE`) are
processed: exactly `min images.length 15` requests are issued, and every
request's position is below both 15 and the input length, so a record at
position ≥ 15 never triggers a network fetch. -/
theorem composite_cap (env : CompositeEnv) (images : List ImageMetadata) :
    (generateThumbnailComposite env images).2.length
        = min images.length MAX_IMAGES_IN_COMPOSITE
    ∧ ∀ req ∈ (generateThumbnailComposite env images).2,
        req.position < MAX_IMAGES_IN_COMPOSITE ∧ req.position < images.length := by
  have hlen : (images.take MAX_IMAGES_IN_COMPOSITE).length
      = min images.length MAX_IMAGES_IN_COMPOSITE := by
    rw [List.length_take, Nat.min_comm]
  constructor
  · rw [gen_reqs]
    rcases compositeResult_reqs env images with hr | ⟨hr1, hr2⟩
    · rw [hr, List.length_map, fetchItems_length, hlen]
    · rw [hr1, ← hlen, hr2]
      rfl
  · intro req hreq
    rw [gen_reqs] at hreq
    rcases compositeResult_reqs env images with hr | ⟨hr1, -⟩
    · rw [hr] at hreq
      rcases List.mem_map.mp hreq with ⟨e, he, hrr⟩
      have h3 := (fetchItems_mem he).2.2
      rw [hrr] at h3
      rw [Nat.zero_add] at h3
      constructor
      · calc req.position < (images.take MAX_IMAGES_IN_COMPOSITE).length := h3
          _ ≤ MAX_IMAGES_IN_COMPOSITE := by rw [hlen]; exact Nat.min_le_right _ _
      · calc req.position < (images.take MAX_IMAGES_IN_COMPOSITE).length := h3
          _ ≤ images.length := by rw [hlen]; exact Nat.min_le_left _ _
    · rw [hr1] at hreq
      simp at hreq

/-! ## C7: grid placement by original (pre-failure) position -/

/-- C7: a successfully fetched item at retained position `i` is placed at
the cell `row = i / 3`, `col = i % 3` (`top = row*cell + (row+1)*spacing`,
`left = col*cell + (col+1)*spacing`), with its 1-based label `i + 1` at a
5px offset into the cell; a failed item's cell origin is occupied by no
layer at all — the other items keep their original grid positions and the
failed cell stays blank. -/
theorem composite_placement (env : CompositeEnv) (images : List ImageMetadata)
    {w h : Nat} {layers : List Layer} {reqs : List FetchRequest} (i : Nat) (url : String)
    (hcr : compositeResult env images = (some (w, h, layers), reqs))
    (hreq : ({ position := i, url := url } : FetchRequest) ∈ reqs) :
    (∀ b : Buffer, env.fetchResize i url = some b →
        ({ input := b,
           top := (i / COLUMNS) * THUMBNAIL_SIZE + (i / COLUMNS + 1) * SPACING,
           left := (i % COLUMNS) * THUMBNAIL_SIZE + (i % COLUMNS + 1) * SPACING } : Layer) ∈ layers
        ∧ ({ input := bufferFromString (svgLabel (i + 1)),
             top := (i / COLUMNS) * THUMBNAIL_SIZE + (i / COLUMNS + 1) * SPACING + 5,
             left := (i % COLUMNS) * THUMBNAIL_SIZE + (i % COLUMNS + 1) * SPACING + 5 } : Layer) ∈ layers)
    ∧ (env.fetchResize i url = none →
        ∀ layer ∈ layers,
          ¬(layer.top = (i / COLUMNS) * THUMBNAIL_SIZE + (i / COLUMNS + 1) * SPACING
            ∧ layer.left = (i % COLUMNS) * THUMBNAIL_SIZE + (i % COLUMNS + 1) * SPACING)) := by
  obtain ⟨hreqs, hlayers⟩ := compositeResult_some hcr
  rw [hreqs] at hreq
  constructor
  · intro b hb
    rcases List.mem_map.mp hreq with ⟨e, he, hr⟩
    have hmem := (fetchItems_mem he).1
    rw [hr] at hmem
    simp only at hmem
    rw [hb] at hmem
    have hval : (b, i) ∈ ((fetchItems env (images.take MAX_IMAGES_IN_COMPOSITE) 0).map (·.1)).filterMap id :=
      List.mem_filterMap.mpr ⟨e.1, List.mem_map_of_mem _ he, by rw [hmem]; rfl⟩
    rw [hlayers, compositeLayers]
    constructor
    · apply List.mem_append_left
      exact List.mem_map.mpr ⟨(b, i), hval, rfl⟩
    · apply List.mem_append_right
      exact List.mem_map.mpr ⟨(b, i), hval, rfl⟩
  · intro hnone layer hl hcoord
    rw [hlayers] at hl
    rcases List.mem_append.mp hl with hl | hl
    · rcases List.mem_map.mp hl with ⟨p, hp, hlay⟩
      obtain ⟨hct, hcl⟩ := hcoord
      rw [← hlay] at hct hcl
      simp only [COLUMNS, THUMBNAIL_SIZE, SPACING] at hct hcl
      have hpi : p.2 = i := by omega
      rcases List.mem_filterMap.mp hp with ⟨o, ho, hid⟩
      rcases List.mem_map.mp ho with ⟨e, he, heo⟩
      simp only [id_eq] at hid
      have hmem := (fetchItems_mem he).1
      have hsome : (env.fetchResize e.2.position e.2.url).map (fun b => (b, e.2.position)) = some p := by
        rw [← hmem, heo, hid]
      obtain ⟨a, ha, hap⟩ := Option.map_eq_some'.mp hsome
      have hpos : e.2.position = i := by
        rw [← hpi, ← hap]
      have hequ : e.2 = ({ position := i, url := url } : FetchRequest) :=
        fetchItems_req_unique (List.mem_map_of_mem _ he) hreq (by rw [hpos])
      rw [hequ] at ha
      simp only at ha
      rw [hnone] at ha
      exact Option.noConfusion ha
    · rcases List.mem_map.mp hl with ⟨p, hp, hlay⟩
      obtain ⟨hct, hcl⟩ := hcoord
      rw [← hlay] at hct
      simp only [COLUMNS, THUMBNAIL_SIZE, SPACING] at hct
      omega

/-! ## C8: single-item composite -/

/-- C8: for exactly one record with valid dimensions whose fetch succeeds,
the composite is non-empty and its canvas is the single-item grid's
computed size: 3 columns wide (`COLUMNS*cell + (COLUMNS+1)*spacing`) and
one row tall (`1*cell + 2*spacing`). -/
theorem composite_single_item (env : CompositeEnv) (img : ImageMetadata) (b : Buffer)
    (henc : ∀ w h layers, env.encodeJpegBase64 w h layers ≠ "")
    (hwh : 0 < img.width ∧ 0 < img.height)
    (hfetch : env.fetchResize 0
        (replaceUrlWidth img.url (calculateThumbnailWidth img.width img.height)) = some b) :
    compositeResult env [img]
      = (some (COLUMNS * THUMBNAIL_SIZE + (COLUMNS + 1) * SPACING,
               1 * THUMBNAIL_SIZE + (1 + 1) * SPACING,
               compositeLayers [(b, 0)]),
         [{ position := 0,
            url := replaceUrlWidth img.url (calculateThumbnailWidth img.width img.height) }])
    ∧ (generateThumbnailComposite env [img]).1 ≠ "" := by
  have hcr : compositeResult env [img]
      = (some (COLUMNS * THUMBNAIL_SIZE + (COLUMNS + 1) * SPACING,
               1 * THUMBNAIL_SIZE + (1 + 1) * SPACING,
               compositeLayers [(b, 0)]),
         [{ position := 0,
            url := replaceUrlWidth img.url (calculateThumbnailWidth img.width img.height) }]) := by
    have htake : ([img] : List ImageMetadata).take MAX_IMAGES_IN_COMPOSITE = [img] := rfl
    have hrows : (([img] : List ImageMetadata).length + COLUMNS - 1) / COLUMNS = 1 := by
      simp [COLUMNS]
    simp only [compositeResult, htake, fetchItems, hfetch, Option.map_some', List.map_cons,
      List.map_nil, List.filterMap_cons, List.filterMap_nil, id_eq, List.isEmpty_cons,
      Bool.false_eq_true, if_false, hrows, List.length_cons, List.length_nil]
    rfl
  refine ⟨hcr, ?_⟩
  rw [generateThumbnailComposite, hcr]
  exact henc _ _ _

lemma exEnv_enc : ∀ w h layers, exEnv.encodeJpegBase64 w h layers ≠ "" := by
  intro w h layers hh
  simp [exEnv] at hh

lemma exEnvFail_enc : ∀ w h layers, exEnvFail.encodeJpegBase64 w h layers ≠ "" := by
  intro w h layers hh
  simp [exEnvFail] at hh

theorem composite_empty_and_failure_witness :
    (generateThumbnailComposite exEnv []).1 = ""
    ∧ (generateThumbnailComposite exEnv []).2 = []
    ∧ (generateThumbnailComposite exEnvFail [exRecord 1]).1 = ""
    ∧ (generateThumbnailComposite exEnv [exRecord 1]).1 ≠ "" :=
  ⟨(composite_empty_and_failure exEnv [] exEnv_enc).1,
   (composite_empty_and_failure exEnv [] exEnv_enc).2.1,
   (composite_empty_and_failure exEnvFail [exRecord 1] exEnvFail_enc).2.2.1
     (fun _ _ => rfl),
   (composite_empty_and_failure exEnv [exRecord 1] exEnv_enc).2.2.2
     ⟨{ position := 0, url := exUrl }, by decide, by decide⟩⟩

theorem composite_cap_witness :
    (generateThumbnailComposite exEnv exManyImages).2.length
        = min exManyImages.length MAX_IMAGES_IN_COMPOSITE
    ∧ (({ position := 0, url := exUrl } : FetchRequest).position < MAX_IMAGES_IN_COMPOSITE
       ∧ ({ position := 0, url := exUrl } : FetchRequest).position < exManyImages.length) :=
  ⟨(composite_cap exEnv exManyImages).1,
   (composite_cap exEnv exManyImages).2 { position := 0, url := exUrl } (by decide)⟩

theorem composite_placement_witness :
    (({ input := ([7] : Buffer),
        top := (0 / COLUMNS) * THUMBNAIL_SIZE + (0 / COLUMNS + 1) * SPACING,
        left := (0 % COLUMNS) * THUMBNAIL_SIZE + (0 % COLUMNS + 1) * SPACING } : Layer)
        ∈ compositeLayers [([7], 0)]
     ∧ ({ input := bufferFromString (svgLabel (0 + 1)),
          top := (0 / COLUMNS) * THUMBNAIL_SIZE + (0 / COLUMNS + 1) * SPACING + 5,
          left := (0 % COLUMNS) * THUMBNAIL_SIZE + (0 % COLUMNS + 1) * SPACING + 5 } : Layer)
        ∈ compositeLayers [([7], 0)])
    ∧ (∀ layer ∈ compositeLayers [([7], 0)],
        ¬(layer.top = (1 / COLUMNS) * THUMBNAIL_SIZE + (1 / COLUMNS + 1) * SPACING
          ∧ layer.left = (1 % COLUMNS) * THUMBNAIL_SIZE + (1 % COLUMNS + 1) * SPACING)) := by
  have hcr : compositeResult exEnvPartial [exRecord 1, exRecord 2]
      = (some (COLUMNS * THUMBNAIL_SIZE + (COLUMNS + 1) * SPACING,
               1 * THUMBNAIL_SIZE + (1 + 1) * SPACING,
               compositeLayers [([7], 0)]),
         [{ position := 0, url := exUrl }, { position := 1, url := exUrl }]) := by
    rfl
  exact ⟨(composite_placement exEnvPartial [exRecord 1, exRecord 2] 0 exUrl hcr
            (by decide)).1 [7] rfl,
         (composite_placement exEnvPartial [exRecord 1, exRecord 2] 1 exUrl hcr
            (by decide)).2 rfl⟩

theorem composite_single_item_witness :
    compositeResult exEnv [exRecord 1]
      = (some (COLUMNS * THUMBNAIL_SIZE + (COLUMNS + 1) * SPACING,
               1 * THUMBNAIL_SIZE + (1 + 1) * SPACING,
               compositeLayers [([7], 0)]),
         [{ position := 0,
            url := replaceUrlWidth (exRecord 1).url
              (calculateThumbnailWidth (exRecord 1).width (exRecord 1).height) }])
    ∧ (generateThumbnailComposite exEnv [exRecord 1]).1 ≠ "" :=
  composite_single_item exEnv (exRecord 1) [7] exEnv_enc (by decide) rfl

lemma hasWidthSeg_cons (c : Char) {s : List Char} (h : HasWidthSeg s) :
    HasWidthSeg (c :: s) := by
  obtain ⟨a, ds, b, h1, h2, h3⟩ := h
  exact ⟨c :: a, ds, b, by rw [h1]; rfl, h2, h3⟩

lemma takeWhile_all_append {p : Char → Bool} {ds : List Char}
    (hds : ∀ c ∈ ds, p c = true) {c : Char} (hc : p c = false) (r : List Char) :
    (ds ++ c :: r).takeWhile p = ds := by
  induction ds with
  | nil => simp [List.takeWhile_cons, hc]
  | cons d t ih =>
    have hd := hds d (by simp)
    simp only [List.cons_append, List.takeWhile_cons, hd, if_true]
    rw [ih (fun x hx => hds x (by simp [hx]))]

lemma drop_takeWhile_len (p : Char → Bool) (l : List Char) :
    l.drop (l.takeWhile p).length = l.dropWhile p := by
  induction l with
  | nil => rfl
  | cons c t ih =>
    by_cases hc : p c
    · simp only [List.takeWhile_cons, hc, if_true, List.length_cons, List.drop_succ_cons,
        List.dropWhile_cons, ih]
    · simp only [List.takeWhile_cons, hc, if_false, List.length_nil, List.drop_zero,
        List.dropWhile_cons, Bool.false_eq_true]

/-- A satisfied guard of `replaceUrlWidthAux` at a slash is a width segment
starting at that slash. -/
lemma guard_widthSeg {rest : List Char}
    (hds : rest.takeWhile Char.isDigit ≠ [])
    (hpx : (rest.drop (rest.takeWhile Char.isDigit).length).take 3 = ['p', 'x', '-']) :
    IsWidthSeg ('/' :: rest) [] (rest.takeWhile Char.isDigit)
      (rest.drop ((rest.takeWhile Char.isDigit).length + 3)) := by
  refine ⟨?_, hds, fun c hc => List.mem_takeWhile_imp hc⟩
  have h3 : rest.drop (rest.takeWhile Char.isDigit).length
      = ['p', 'x', '-'] ++ (rest.drop (rest.takeWhile Char.isDigit).length).drop 3 := by
    conv_lhs => rw [← List.take_append_drop 3 (rest.drop (rest.takeWhile Char.isDigit).length)]
    rw [hpx]
  have h4 : (rest.drop (rest.takeWhile Char.isDigit).length).drop 3
      = rest.drop ((rest.takeWhile Char.isDigit).length + 3) := by
    rw [List.drop_drop]
  have h5 : rest = rest.takeWhile Char.isDigit
      ++ ('p' :: 'x' :: '-' :: rest.drop ((rest.takeWhile Char.isDigit).length + 3)) := by
    conv_lhs => rw [← List.takeWhile_append_dropWhile (p := Char.isDigit) (l := rest)]
    rw [← drop_takeWhile_len Char.isDigit rest, h3, h4]
    rfl
  conv_lhs => rw [h5]
  rfl

/-- Unfolding of `replaceUrlWidthAux` at a slash. -/
lemma aux_cons_slash (n : Nat) (rest : List Char) :
    replaceUrlWidthAux n ('/' :: rest)
      = if rest.takeWhile Char.isDigit ≠ []
            ∧ (rest.drop (rest.takeWhile Char.isDigit).length).take 3 = ['p', 'x', '-'] then
          '/' :: ((toString n).toList ++ 'p' :: 'x' :: '-'
            :: rest.drop ((rest.takeWhile Char.isDigit).length + 3))
        else '/' :: replaceUrlWidthAux n rest := by
  rw [replaceUrlWidthAux, if_pos rfl]

/-- Unfolding of `replaceUrlWidthAux` at a non-slash character. -/
lemma aux_cons_other (n : Nat) {c : Char} (hc : c ≠ '/') (rest : List Char) :
    replaceUrlWidthAux n (c :: rest) = c :: replaceUrlWidthAux n rest := by
  rw [replaceUrlWidthAux, if_neg hc]

lemma aux_no_match (n : Nat) (s : List Char) (h : ¬ HasWidthSeg s) :
    replaceUrlWidthAux n s = s := by
  induction s with
  | nil => rfl
  | cons c rest ih =>
    have hrest : ¬ HasWidthSeg rest := fun hr => h (hasWidthSeg_cons c hr)
    by_cases hc : c = '/'
    · subst hc
      rw [aux_cons_slash]
      by_cases hg : rest.takeWhile Char.isDigit ≠ []
          ∧ (rest.drop (rest.takeWhile Char.isDigit).length).take 3 = ['p', 'x', '-']
      · exact absurd ⟨[], _, _, guard_widthSeg hg.1 hg.2⟩ h
      · rw [if_neg hg, ih hrest]
    · rw [aux_cons_other n hc, ih hrest]

lemma aux_first_match (n : Nat) (a : List Char) :
    ∀ (s ds b : List Char), IsWidthSeg s a ds b →
      (∀ a' ds' b', IsWidthSeg s a' ds' b' → a.length ≤ a'.length) →
      replaceUrlWidthAux n s = a ++ '/' :: ((toString n).toList ++ 'p' :: 'x' :: '-' :: b) := by
  induction a with
  | nil =>
    intro s ds b hseg hmin
    obtain ⟨hs, hds, hdig⟩ := hseg
    subst hs
    simp only [List.nil_append]
    have htw : (ds ++ 'p' :: 'x' :: '-' :: b).takeWhile Char.isDigit = ds :=
      takeWhile_all_append hdig (by decide) _
    have hdrop : (ds ++ 'p' :: 'x' :: '-' :: b).drop ds.length = 'p' :: 'x' :: '-' :: b :=
      List.drop_left _ _
    have hdropb : (ds ++ 'p' :: 'x' :: '-' :: b).drop (ds.length + 3) = b := by
      rw [← List.drop_drop, hdrop]
      rfl
    rw [aux_cons_slash]
    have hcond : (ds ++ 'p' :: 'x' :: '-' :: b).takeWhile Char.isDigit ≠ []
        ∧ ((ds ++ 'p' :: 'x' :: '-' :: b).drop
            ((ds ++ 'p' :: 'x' :: '-' :: b).takeWhile Char.isDigit).length).take 3
          = ['p', 'x', '-'] := by
      rw [htw, hdrop]
      exact ⟨hds, rfl⟩
    rw [if_pos hcond, htw, hdropb]
  | cons c a' ih =>
    intro s ds b hseg hmin
    obtain ⟨hs, hds, hdig⟩ := hseg
    subst hs
    have hseg' : IsWidthSeg (a' ++ '/' :: (ds ++ 'p' :: 'x' :: '-' :: b)) a' ds b :=
      ⟨rfl, hds, hdig⟩
    have hmin' : ∀ a'' ds'' b'',
        IsWidthSeg (a' ++ '/' :: (ds ++ 'p' :: 'x' :: '-' :: b)) a'' ds'' b'' →
        a'.length ≤ a''.length := by
      intro a'' ds'' b'' hW
      have := hmin (c :: a'') ds'' b''
        ⟨by rw [List.cons_append, hW.1, List.cons_append], hW.2.1, hW.2.2⟩
      simpa using this
    rw [List.cons_append]
    by_cases hc : c = '/'
    · subst hc
      rw [aux_cons_slash]
      by_cases hg : (a' ++ '/' :: (ds ++ 'p' :: 'x' :: '-' :: b)).takeWhile Char.isDigit ≠ []
          ∧ ((a' ++ '/' :: (ds ++ 'p' :: 'x' :: '-' :: b)).drop
              ((a' ++ '/' :: (ds ++ 'p' :: 'x' :: '-' :: b)).takeWhile Char.isDigit).length).take 3
            = ['p', 'x', '-']
      · exfalso
        have hW := guard_widthSeg hg.1 hg.2
        have := hmin [] _ _ hW
        simp at this
      · rw [if_neg hg, ih _ ds b hseg' hmin', List.cons_append]
    · rw [aux_cons_other n hc, ih _ ds b hseg' hmin', List.cons_append]

/-- C10: a URL with no `"/<digits>px-"` segment is returned unchanged by
`replaceUrlWidth` (so the fetcher requests the stored URL as is), and when
such segments exist, exactly the leftmost one is replaced by the computed
width. -/
theorem replaceUrlWidth_first_occurrence (s : List Char) (n : Nat) :
    (¬ HasWidthSeg s → replaceUrlWidth (String.mk s) n = String.mk s)
    ∧ (∀ a ds b, IsWidthSeg s a ds b →
        (∀ a' ds' b', IsWidthSeg s a' ds' b' → a.length ≤ a'.length) →
        replaceUrlWidth (String.mk s) n
          = String.mk (a ++ '/' :: ((toString n).toList ++ 'p' :: 'x' :: '-' :: b))) := by
  constructor
  · intro h
    show String.mk (replaceUrlWidthAux n s) = String.mk s
    rw [aux_no_match n s h]
  · intro a ds b hseg hmin
    show String.mk (replaceUrlWidthAux n s) = _
    rw [aux_first_match n a s ds b hseg hmin]

theorem replaceUrlWidth_first_occurrence_witness :
    replaceUrlWidth (String.mk ['a', 'b']) 7 = String.mk ['a', 'b'] :=
  (replaceUrlWidth_first_occurrence ['a', 'b'] 7).1 (by
    rintro ⟨a, ds, b, h1, h2, -⟩
    have hlen := congrArg List.length h1
    have hds : 1 ≤ ds.length := List.length_pos.mpr h2
    simp [List.length_append] at hlen
    omega)
